import Mathlib

/-!
Verification of the RewardFlow distribution algorithm (`src/formulas.js`).

The three core operations — `calculateWeightage` (Weight Calculator),
`calculateDistribution` (Distribution Engine) and `getDistributionStats`
(Statistics Aggregator) — are pure arithmetic over JavaScript numbers.
They are embedded here over the real numbers ℝ, with `Math.log10` /
`Math.log2` rendered as `Real.logb 10` / `Real.logb 2` and `Math.exp`
as `Real.exp`.  The `try/catch` wrapper in the source is dead code in
this arithmetic fragment (JavaScript `Math` functions return `NaN`
rather than throwing), so it has no counterpart in the embedding.
-/

noncomputable section

open Real

/-- Result record produced by `calculateWeightage` for one holder.
The field names follow the object literal in `src/formulas.js`; note that
the result field `hoursSinceLaunch` is assigned `hoursAfterLaunch` by the
source. -/
structure WeightResult where
  balanceWeight : ℝ
  earlyBonus : ℝ
  tenureBonus : ℝ
  timeWeight : ℝ
  totalWeight : ℝ
  hoursSinceLaunch : ℝ
  hoursHeld : ℝ
  qualified : Bool
deriving DecidableEq

/-- The token-balance weight term `1 + Math.log10(tokens / minBalance)`. -/
def balanceWeightOf (tokens minBalance : ℝ) : ℝ :=
  1 + Real.logb 10 (tokens / minBalance)

/-- The early-purchase bonus term `1 + 2 * Math.exp(-daysSinceLaunch / 2)`. -/
def earlyBonusOf (daysSinceLaunch : ℝ) : ℝ :=
  1 + 2 * Real.exp (-daysSinceLaunch / 2)

/-- The tenure bonus term `1 + 0.6 * Math.log2(daysHeld + 1)`. -/
def tenureBonusOf (daysHeld : ℝ) : ℝ :=
  1 + 0.6 * Real.logb 2 (daysHeld + 1)

/-- The zeroed, disqualified record returned when `tokens < minBalance`
(and by the source's catch-all handler). -/
def disqualifiedWeight : WeightResult :=
  { balanceWeight := 0
    earlyBonus := 0
    tenureBonus := 0
    timeWeight := 0
    totalWeight := 0
    hoursSinceLaunch := 0
    hoursHeld := 0
    qualified := false }

/-- Embedding of `calculateWeightage(tokens, hoursAfterLaunch,
hoursSinceLaunch, minBalance)` from `src/formulas.js`. -/
def calculateWeightage (tokens hoursAfterLaunch hoursSinceLaunch minBalance : ℝ) :
    WeightResult :=
  if tokens < minBalance then
    disqualifiedWeight
  else
    let hoursHeld := hoursSinceLaunch - hoursAfterLaunch
    let daysSinceLaunch := hoursAfterLaunch / 24
    let daysHeld := hoursHeld / 24
    let tokenBalanceWeight := balanceWeightOf tokens minBalance
    let earlyBonus := earlyBonusOf daysSinceLaunch
    let tenureBonus := tenureBonusOf daysHeld
    let timeWeight := earlyBonus * tenureBonus
    let totalWeight := tokenBalanceWeight * timeWeight
    { balanceWeight := tokenBalanceWeight
      earlyBonus := earlyBonus
      tenureBonus := tenureBonus
      timeWeight := timeWeight
      totalWeight := totalWeight
      hoursSinceLaunch := hoursAfterLaunch
      hoursHeld := hoursHeld
      qualified := true }

/-- One holder record, as assembled by the demo shell (`demo.js`): the
per-run configuration thresholds are copied onto each holder. -/
structure Holder where
  address : String
  tokens : ℝ
  hoursAfterLaunch : ℝ
  hoursSinceLaunch : ℝ
  minBalance : ℝ
  maxBalance : ℝ

/-- One entry of the list returned by `calculateDistribution`. -/
structure AllocationResult where
  address : String
  tokens : ℝ
  weightage : WeightResult
  share : ℝ
  amount : ℝ
  sharePercentage : ℝ

/-- The weightage the Distribution Engine attaches to a holder:
`calculateWeightage(holder.tokens, holder.hoursAfterLaunch,
holder.hoursSinceLaunch, holder.minBalance)`. -/
def holderWeight (h : Holder) : WeightResult :=
  calculateWeightage h.tokens h.hoursAfterLaunch h.hoursSinceLaunch h.minBalance

/-- The `validHolders` list inside `calculateDistribution`: each holder
paired with its weightage, kept when `weightage.qualified` holds and
`tokens <= maxBalance`. -/
def validHolders (holders : List Holder) : List (Holder × WeightResult) :=
  (holders.map (fun h => (h, holderWeight h))).filter
    (fun p => p.2.qualified && decide (p.1.tokens ≤ p.1.maxBalance))

/-- Embedding of `totalWeightage`: sum of `totalWeight` over the valid holders. -/
def totalWeightage (holders : List Holder) : ℝ :=
  ((validHolders holders).map (fun p => p.2.totalWeight)).sum

/-- The `distributionResults` list built inside `calculateDistribution`,
before the dust filter: `availableForDistribution = totalTreasury -
totalTreasury * feeReserve`, `share = totalWeight / totalWeightage`,
`amount = availableForDistribution * share`. -/
def rawAllocations (holders : List Holder) (totalTreasury feeReserve : ℝ) :
    List AllocationResult :=
  let availableForDistribution := totalTreasury - totalTreasury * feeReserve
  (validHolders holders).map (fun p =>
    let share := p.2.totalWeight / totalWeightage holders
    let amount := availableForDistribution * share
    { address := p.1.address
      tokens := p.1.tokens
      weightage := p.2
      share := share
      amount := amount
      sharePercentage := share * 100 })

/-- Embedding of `calculateDistribution(holders, totalTreasury, feeReserve)`
from `src/formulas.js`: returns `[]` when no holder survives eligibility
filtering, otherwise the raw allocations with entries of `amount < 0.000001`
dropped (dust filter). -/
def calculateDistribution (holders : List Holder) (totalTreasury feeReserve : ℝ) :
    List AllocationResult :=
  if (validHolders holders).length = 0 then
    []
  else
    (rawAllocations holders totalTreasury feeReserve).filter
      (fun r => decide ((0.000001 : ℝ) ≤ r.amount))

/-- Statistics record returned by `getDistributionStats`.  The
`topWeight` / `topReward` / `bottomWeight` / `bottomReward` fields of the
source (display-only selections from a sorted copy) are omitted; no claim
concerns them. -/
structure DistributionStats where
  totalHolders : Nat
  validHolders : Nat
  totalTokens : ℝ
  totalWeightage : ℝ
  totalDistributed : ℝ
  averageWeight : ℝ
  averageReward : ℝ

/-- Embedding of `getDistributionStats(holders, distribution)` from
`src/formulas.js` (summary fields): `validHolders` keeps the holders with
`tokens >= minBalance` — the min-balance check only. -/
def getDistributionStats (holders : List Holder)
    (distribution : List AllocationResult) : DistributionStats :=
  let statValid := holders.filter (fun h => decide (h.minBalance ≤ h.tokens))
  let totalTokens := (statValid.map (fun h => h.tokens)).sum
  let totalW := (distribution.map (fun d => d.weightage.totalWeight)).sum
  let totalDistributed := (distribution.map (fun d => d.amount)).sum
  { totalHolders := holders.length
    validHolders := statValid.length
    totalTokens := totalTokens
    totalWeightage := totalW
    totalDistributed := totalDistributed
    averageWeight := totalW / distribution.length
    averageReward := totalDistributed / distribution.length }

/-- The single holder of the spec's concrete scenario: tokens 20000 bought at
hour 0, 48 hours since launch, thresholds from the demo defaults. -/
def demoHolder : Holder :=
  { address := "holder1"
    tokens := 20000
    hoursAfterLaunch := 0
    hoursSinceLaunch := 48
    minBalance := 20000
    maxBalance := 100000000 }

/-- The weightage `calculateWeightage` computes for `demoHolder`, in closed
form. -/
def demoWeight : WeightResult :=
  { balanceWeight := 1
    earlyBonus := 3
    tenureBonus := 1 + 0.6 * Real.logb 2 3
    timeWeight := 3 * (1 + 0.6 * Real.logb 2 3)
    totalWeight := 3 * (1 + 0.6 * Real.logb 2 3)
    hoursSinceLaunch := 0
    hoursHeld := 48
    qualified := true }

/-- The allocation a single-`demoHolder` run produces for treasury `T` and
fee reserve `f` (before the dust filter). -/
def demoAlloc (T f : ℝ) : AllocationResult :=
  { address := "holder1"
    tokens := 20000
    weightage := demoWeight
    share := 1
    amount := T - T * f
    sharePercentage := 100 }

/-- A holder strictly below its minimum-balance threshold. -/
def belowHolder : Holder :=
  { address := "small"
    tokens := 1
    hoursAfterLaunch := 0
    hoursSinceLaunch := 0
    minBalance := 2
    maxBalance := 10 }

/-- A holder above its maximum-balance threshold but meeting the minimum:
counted by the Statistics Aggregator, excluded by the Distribution Engine. -/
def overMaxHolder : Holder :=
  { address := "whale"
    tokens := 200
    hoursAfterLaunch := 0
    hoursSinceLaunch := 0
    minBalance := 1
    maxBalance := 100 }

end

/-- Claim C3 helper: the qualification flag is exactly the min-balance test. -/
theorem calculateWeightage_qualified_iff (t a s m : ℝ) :
    (calculateWeightage t a s m).qualified = true ↔ ¬t < m := by
  by_cases h : t < m
  · simp [calculateWeightage, h, disqualifiedWeight]
  · simp [calculateWeightage, h]

/-- Claim C2: for every input with tokenBalance ≥ minBalance, the result is
qualified with `balanceWeight = 1 + log10(tokenBalance / minBalance)`,
`earlyBonus = 1 + 2·exp(−(hoursAfterLaunch/24)/2)`,
`tenureBonus = 1 + 0.6·log2((hoursSinceLaunch − hoursAfterLaunch)/24 + 1)`,
`timeWeight = earlyBonus × tenureBonus` and
`totalWeight = balanceWeight × earlyBonus × tenureBonus`; in particular
`calculateWeightage minBalance h h minBalance` has `balanceWeight = 1`. -/
theorem claim_C2_qualified_formulas :
    (∀ t a s m : ℝ, m ≤ t →
      (calculateWeightage t a s m).qualified = true ∧
      (calculateWeightage t a s m).balanceWeight = 1 + Real.logb 10 (t / m) ∧
      (calculateWeightage t a s m).earlyBonus =
        1 + 2 * Real.exp (-(a / 24) / 2) ∧
      (calculateWeightage t a s m).tenureBonus =
        1 + 0.6 * Real.logb 2 ((s - a) / 24 + 1) ∧
      (calculateWeightage t a s m).timeWeight =
        (calculateWeightage t a s m).earlyBonus *
          (calculateWeightage t a s m).tenureBonus ∧
      (calculateWeightage t a s m).totalWeight =
        (calculateWeightage t a s m).balanceWeight *
          (calculateWeightage t a s m).earlyBonus *
          (calculateWeightage t a s m).tenureBonus) ∧
    (∀ m h : ℝ, 0 < m → (calculateWeightage m h h m).balanceWeight = 1) := by
  constructor
  · intro t a s m hmt
    have hlt : ¬t < m := not_lt.mpr hmt
    simp only [calculateWeightage, if_neg hlt, balanceWeightOf, earlyBonusOf,
      tenureBonusOf]
    refine ⟨trivial, trivial, trivial, trivial, trivial, ?_⟩
    ring
  · intro m h hm
    have hlt : ¬m < m := lt_irrefl m
    simp only [calculateWeightage, if_neg hlt, balanceWeightOf]
    rw [div_self (ne_of_gt hm), Real.logb_one, add_zero]

/-- Claim C2 witness at t = 3, a = 1, s = 2, m = 2 and at minBalance 20000. -/
theorem claim_C2_qualified_formulas_witness :
    (calculateWeightage 3 1 2 2).qualified = true ∧
    (calculateWeightage 3 1 2 2).balanceWeight =
      1 + Real.logb 10 ((3 : ℝ) / 2) ∧
    (calculateWeightage 20000 7 7 20000).balanceWeight = 1 := by
  have h1 := (claim_C2_qualified_formulas.1 3 1 2 2 (by norm_num))
  have h2 := claim_C2_qualified_formulas.2 20000 7 (by norm_num)
  exact ⟨h1.1, h1.2.1, h2⟩

/-- Claim C3: `qualified = false` exactly when `tokens < minBalance`, and in
that case the whole record is the zeroed, disqualified record (all weight
fields and `hoursHeld` equal 0). -/
theorem claim_C3_disqualified (t a s m : ℝ) :
    ((calculateWeightage t a s m).qualified = false ↔ t < m) ∧
    (t < m → calculateWeightage t a s m =
      { balanceWeight := 0, earlyBonus := 0, tenureBonus := 0, timeWeight := 0,
        totalWeight := 0, hoursSinceLaunch := 0, hoursHeld := 0,
        qualified := false }) := by
  constructor
  · by_cases h : t < m
    · simp [calculateWeightage, h, disqualifiedWeight]
    · simp [calculateWeightage, h]
  · intro h
    simp [calculateWeightage, h, disqualifiedWeight]

/-- Claim C3 witness at t = 1, m = 2. -/
theorem claim_C3_disqualified_witness :
    ((calculateWeightage 1 5 9 2).qualified = false ↔ (1 : ℝ) < 2) ∧
    (calculateWeightage 1 5 9 2).totalWeight = 0 := by
  refine ⟨(claim_C3_disqualified 1 5 9 2).1, ?_⟩
  have h := (claim_C3_disqualified 1 5 9 2).2 (by norm_num)
  rw [h]

/-- Claim C10: the result field named `hoursSinceLaunch` holds the
`hoursAfterLaunch` argument in the qualified case and 0 in the
disqualified case. -/
theorem claim_C10_hoursSinceLaunch_field (t a s m : ℝ) :
    (calculateWeightage t a s m).hoursSinceLaunch = if t < m then 0 else a := by
  by_cases h : t < m
  · simp [calculateWeightage, h, disqualifiedWeight]
  · simp [calculateWeightage, h]

/-- Helper: sum over a list after dividing each value by a constant. -/
theorem sum_map_totalWeight_div (l : List (Holder × WeightResult)) (c : ℝ) :
    (l.map (fun p => p.2.totalWeight / c)).sum =
      (l.map (fun p => p.2.totalWeight)).sum / c := by
  induction l with
  | nil => simp
  | cons x xs ih => simp [ih, add_div]

/-- Helper: filtering a list can only shrink the sum of a nonnegative map. -/
theorem sum_map_filter_le {α : Type} (p : α → Bool) (f : α → ℝ) :
    ∀ l : List α, (∀ x ∈ l, 0 ≤ f x) →
      ((l.filter p).map f).sum ≤ (l.map f).sum := by
  intro l
  induction l with
  | nil => intro _; simp
  | cons x xs ih =>
    intro h
    have hx : 0 ≤ f x := h x (List.mem_cons_self x xs)
    have hxs : ∀ y ∈ xs, 0 ≤ f y := fun y hy => h y (List.mem_cons_of_mem x hy)
    by_cases hp : p x
    · rw [List.filter_cons_of_pos hp]
      simp only [List.map_cons, List.sum_cons]
      linarith [ih hxs]
    · rw [List.filter_cons_of_neg hp]
      simp only [List.map_cons, List.sum_cons]
      linarith [ih hxs]

/-- Helper: with strictly positive values, the filtered sum equals the full
sum exactly when the filter keeps every element. -/
theorem sum_map_filter_eq_iff {α : Type} (p : α → Bool) (f : α → ℝ) :
    ∀ l : List α, (∀ x ∈ l, 0 < f x) →
      (((l.filter p).map f).sum = (l.map f).sum ↔ ∀ x ∈ l, p x = true) := by
  intro l
  induction l with
  | nil => intro _; simp
  | cons x xs ih =>
    intro h
    have hx : 0 < f x := h x (List.mem_cons_self x xs)
    have hxs : ∀ y ∈ xs, 0 < f y := fun y hy => h y (List.mem_cons_of_mem x hy)
    by_cases hp : p x
    · rw [List.filter_cons_of_pos hp]
      simp only [List.map_cons, List.sum_cons]
      constructor
      · intro heq y hy
        rcases List.mem_cons.mp hy with hy | hy
        · rw [hy]; exact hp
        · exact (ih hxs).mp (by linarith) y hy
      · intro hall
        have : ∀ y ∈ xs, p y = true :=
          fun y hy => hall y (List.mem_cons_of_mem x hy)
        rw [(ih hxs).mpr this]
    · rw [List.filter_cons_of_neg hp]
      simp only [List.map_cons, List.sum_cons]
      constructor
      · intro heq
        exfalso
        have hle := sum_map_filter_le p f xs fun y hy => le_of_lt (hxs y hy)
        linarith
      · intro hall
        exact absurd (hall x (List.mem_cons_self x xs)) hp

/-- Helper: a qualifying holder with a positive minimum threshold and a
purchase no later than "now" has a strictly positive total weight. -/
theorem totalWeight_pos (t a s m : ℝ) (hm : 0 < m) (has : a ≤ s)
    (hq : ¬t < m) : 0 < (calculateWeightage t a s m).totalWeight := by
  simp only [calculateWeightage, if_neg hq]
  have hbw : (1 : ℝ) ≤ balanceWeightOf t m := by
    unfold balanceWeightOf
    have h1 : (1 : ℝ) ≤ t / m := (one_le_div hm).mpr (not_lt.mp hq)
    have h2 : (0 : ℝ) ≤ Real.logb 10 (t / m) :=
      Real.logb_nonneg (by norm_num) h1
    linarith
  have heb : (0 : ℝ) < earlyBonusOf (a / 24) := by
    unfold earlyBonusOf
    have := Real.exp_pos (-(a / 24) / 2)
    linarith
  have htb : (1 : ℝ) ≤ tenureBonusOf ((s - a) / 24) := by
    unfold tenureBonusOf
    have h0 : (0 : ℝ) ≤ (s - a) / 24 :=
      div_nonneg (sub_nonneg.mpr has) (by norm_num)
    have h2 : (0 : ℝ) ≤ Real.logb 2 ((s - a) / 24 + 1) :=
      Real.logb_nonneg (by norm_num) (by linarith)
    linarith
  have hprod : (0 : ℝ) < earlyBonusOf (a / 24) * tenureBonusOf ((s - a) / 24) :=
    mul_pos heb (by linarith)
  exact mul_pos (by linarith) hprod

/-- Helper: what membership in the Distribution Engine's `validHolders`
list means. -/
theorem mem_validHolders {holders : List Holder} {p : Holder × WeightResult}
    (hp : p ∈ validHolders holders) :
    p.1 ∈ holders ∧ p.2 = holderWeight p.1 ∧ p.2.qualified = true ∧
      p.1.tokens ≤ p.1.maxBalance := by
  unfold validHolders at hp
  rw [List.mem_filter] at hp
  obtain ⟨hmem, hpred⟩ := hp
  rw [List.mem_map] at hmem
  obtain ⟨h, hh, rfl⟩ := hmem
  simp only [Bool.and_eq_true, decide_eq_true_eq] at hpred
  exact ⟨hh, rfl, hpred.1, hpred.2⟩

/-- Helper: under the spec's configuration preconditions, a non-empty
eligible set has a strictly positive weight total. -/
theorem totalWeightage_pos (holders : List Holder)
    (hwf : ∀ h ∈ holders,
      0 < h.minBalance ∧ h.hoursAfterLaunch ≤ h.hoursSinceLaunch)
    (hne : validHolders holders ≠ []) : 0 < totalWeightage holders := by
  unfold totalWeightage
  apply List.sum_pos
  · intro w hw
    rw [List.mem_map] at hw
    obtain ⟨p, hp, rfl⟩ := hw
    obtain ⟨hmem, heq, hq, _⟩ := mem_validHolders hp
    obtain ⟨hm, has⟩ := hwf p.1 hmem
    rw [heq] at hq ⊢
    exact totalWeight_pos p.1.tokens p.1.hoursAfterLaunch
      p.1.hoursSinceLaunch p.1.minBalance hm has
      ((calculateWeightage_qualified_iff _ _ _ _).mp hq)
  · intro hmapnil
    exact hne (List.map_eq_nil_iff.mp hmapnil)

/-- Helper: the demo holder's closed-form total weight is positive. -/
theorem demoWeight_totalWeight_pos : 0 < demoWeight.totalWeight := by
  have h2 : (0 : ℝ) ≤ Real.logb 2 3 := Real.logb_nonneg (by norm_num) (by norm_num)
  simp only [demoWeight]
  nlinarith

/-- Helper: filtering a singleton keeps the element the predicate accepts. -/
theorem filter_singleton_of_pos {α : Type} (p : α → Bool) (a : α)
    (h : p a = true) : List.filter p [a] = [a] := by
  simp [List.filter_cons, h]

/-- Helper: filtering a singleton drops the element the predicate rejects. -/
theorem filter_singleton_of_neg {α : Type} (p : α → Bool) (a : α)
    (h : p a = false) : List.filter p [a] = [] := by
  simp [List.filter_cons, h]

/-- Helper: evaluating the Weight Calculator on the demo holder. -/
theorem holderWeight_demo : holderWeight demoHolder = demoWeight := by
  have h : ¬(20000 : ℝ) < 20000 := lt_irrefl _
  simp only [holderWeight, demoHolder, calculateWeightage, if_neg h,
    balanceWeightOf, earlyBonusOf, tenureBonusOf, demoWeight,
    WeightResult.mk.injEq]
  norm_num [Real.exp_zero, Real.logb_one]

/-- Helper: the demo holder passes the Distribution Engine's eligibility
filter. -/
theorem validHolders_demo : validHolders [demoHolder] = [(demoHolder, demoWeight)] := by
  simp only [validHolders, List.map_cons, List.map_nil, holderWeight_demo]
  apply filter_singleton_of_pos
  simp only [demoWeight, demoHolder, Bool.and_eq_true, decide_eq_true_eq]
  norm_num

/-- Helper: the total weightage of the single-demo-holder run. -/
theorem totalWeightage_demo : totalWeightage [demoHolder] = demoWeight.totalWeight := by
  simp [totalWeightage, validHolders_demo]

/-- Helper: the raw allocation list of the single-demo-holder run. -/
theorem rawAllocations_demo (T f : ℝ) :
    rawAllocations [demoHolder] T f = [demoAlloc T f] := by
  have hne : demoWeight.totalWeight ≠ 0 := ne_of_gt demoWeight_totalWeight_pos
  simp only [rawAllocations, validHolders_demo, totalWeightage_demo,
    List.map_cons, List.map_nil, demoAlloc, AllocationResult.mk.injEq,
    div_self hne]
  norm_num [demoHolder]

/-- Helper: the distribution of the single-demo-holder run, whenever the
available pool clears the dust threshold. -/
theorem calculateDistribution_demo (T f : ℝ)
    (h : (0.000001 : ℝ) ≤ T - T * f) :
    calculateDistribution [demoHolder] T f = [demoAlloc T f] := by
  have hlen : ¬(validHolders [demoHolder]).length = 0 := by
    rw [validHolders_demo]; simp
  rw [calculateDistribution, if_neg hlen, rawAllocations_demo]
  apply filter_singleton_of_pos
  simp only [demoAlloc, decide_eq_true_eq]
  exact h

/-- Helper: holders that are all below their minimum or above their maximum
leave the eligibility filter empty. -/
theorem validHolders_eq_nil (holders : List Holder)
    (h : ∀ x ∈ holders, x.tokens < x.minBalance ∨ x.maxBalance < x.tokens) :
    validHolders holders = [] := by
  unfold validHolders
  rw [List.filter_eq_nil_iff]
  intro p hp
  rw [List.mem_map] at hp
  obtain ⟨x, hx, rfl⟩ := hp
  rcases h x hx with hbelow | habove
  · have : (holderWeight x).qualified = false := by
      rw [Bool.eq_false_iff]
      intro hq
      exact absurd hbelow
        (not_lt.mpr (not_lt.mp ((calculateWeightage_qualified_iff _ _ _ _).mp hq)))
    simp [this]
  · simp [not_le.mpr habove]

/-- Helper: an empty eligibility set yields an empty distribution. -/
theorem calculateDistribution_of_validHolders_nil (holders : List Holder)
    (T f : ℝ) (h : validHolders holders = []) :
    calculateDistribution holders T f = [] := by
  rw [calculateDistribution, if_pos]
  rw [h]
  rfl

/-- Helper: the share column of the raw allocations is the normalized
weight column. -/
theorem rawAllocations_map_share (holders : List Holder) (T f : ℝ) :
    (rawAllocations holders T f).map AllocationResult.share =
      (validHolders holders).map
        (fun p => p.2.totalWeight / totalWeightage holders) := by
  simp only [rawAllocations, List.map_map]
  rfl

/-- Helper: the raw shares sum to exactly 1 whenever the weight total is
nonzero. -/
theorem rawAllocations_share_sum (holders : List Holder) (T f : ℝ)
    (hW : totalWeightage holders ≠ 0) :
    ((rawAllocations holders T f).map AllocationResult.share).sum = 1 := by
  rw [rawAllocations_map_share, sum_map_totalWeight_div]
  exact div_self hW

/-- Helper: under the configuration preconditions every raw share is
strictly positive. -/
theorem rawAllocations_share_pos (holders : List Holder) (T f : ℝ)
    (hwf : ∀ h ∈ holders,
      0 < h.minBalance ∧ h.hoursAfterLaunch ≤ h.hoursSinceLaunch) :
    ∀ r ∈ rawAllocations holders T f, 0 < r.share := by
  intro r hr
  simp only [rawAllocations, List.mem_map] at hr
  obtain ⟨p, hp, rfl⟩ := hr
  have hne : validHolders holders ≠ [] := by
    intro hnil
    rw [hnil] at hp
    exact absurd hp (List.not_mem_nil p)
  have hW := totalWeightage_pos holders hwf hne
  obtain ⟨hmem, heq, hq, _⟩ := mem_validHolders hp
  obtain ⟨hm, has⟩ := hwf p.1 hmem
  rw [heq] at hq
  unfold holderWeight at hq
  have hw : 0 < p.2.totalWeight := by
    rw [heq]
    exact totalWeight_pos _ _ _ _ hm has
      ((calculateWeightage_qualified_iff _ _ _ _).mp hq)
  exact div_pos hw hW

/-- Helper: with a non-empty eligible set, the distribution is the raw
allocation list pruned by the dust filter. -/
theorem calculateDistribution_eq_filter (holders : List Holder) (T f : ℝ)
    (hne : validHolders holders ≠ []) :
    calculateDistribution holders T f =
      (rawAllocations holders T f).filter
        (fun r => decide ((0.000001 : ℝ) ≤ r.amount)) := by
  rw [calculateDistribution, if_neg]
  simpa [List.length_eq_zero] using hne

/-- Claim C1: with a non-empty eligible set (and the spec's configuration
preconditions `minBalance > 0` and `hoursAfterLaunch ≤ hoursSinceLaunch`),
the shares of the returned allocations sum to at most 1, with equality
exactly when the dust filter removes nothing, i.e. when every computed
amount is at least `0.000001`. -/
theorem claim_C1_share_sum (holders : List Holder) (T f : ℝ)
    (hwf : ∀ h ∈ holders,
      0 < h.minBalance ∧ h.hoursAfterLaunch ≤ h.hoursSinceLaunch)
    (hne : validHolders holders ≠ []) :
    ((calculateDistribution holders T f).map AllocationResult.share).sum ≤ 1 ∧
    (((calculateDistribution holders T f).map AllocationResult.share).sum = 1 ↔
      ∀ r ∈ rawAllocations holders T f, (0.000001 : ℝ) ≤ r.amount) := by
  have hW := totalWeightage_pos holders hwf hne
  have hsum := rawAllocations_share_sum holders T f (ne_of_gt hW)
  have hpos := rawAllocations_share_pos holders T f hwf
  rw [calculateDistribution_eq_filter holders T f hne]
  constructor
  · have hle := sum_map_filter_le
      (fun r => decide ((0.000001 : ℝ) ≤ r.amount)) AllocationResult.share
      (rawAllocations holders T f) (fun x hx => le_of_lt (hpos x hx))
    rw [hsum] at hle
    exact hle
  · have hiff := sum_map_filter_eq_iff
      (fun r => decide ((0.000001 : ℝ) ≤ r.amount)) AllocationResult.share
      (rawAllocations holders T f) hpos
    rw [hsum] at hiff
    rw [hiff]
    simp only [decide_eq_true_eq]

/-- Claim C1 witness: the single-demo-holder run with treasury 10 and fee
reserve 0.05. -/
theorem claim_C1_share_sum_witness :
    ((calculateDistribution [demoHolder] 10 0.05).map
      AllocationResult.share).sum ≤ 1 ∧
    (((calculateDistribution [demoHolder] 10 0.05).map
      AllocationResult.share).sum = 1 ↔
      ∀ r ∈ rawAllocations [demoHolder] 10 0.05,
        (0.000001 : ℝ) ≤ r.amount) :=
  claim_C1_share_sum [demoHolder] 10 0.05
    (by
      intro h hh
      rw [List.mem_singleton] at hh
      subst hh
      exact ⟨by norm_num [demoHolder], by norm_num [demoHolder]⟩)
    (by rw [validHolders_demo]; simp)

/-- Claim C4: every returned allocation comes from an input holder that is
qualified (tokens ≥ its minBalance), within its maxBalance, and whose
computed amount clears the dust threshold. -/
theorem claim_C4_allocation_provenance (holders : List Holder) (T f : ℝ) :
    ∀ r ∈ calculateDistribution holders T f, ∃ h, h ∈ holders ∧
      r.address = h.address ∧ r.tokens = h.tokens ∧
      r.weightage = holderWeight h ∧ (holderWeight h).qualified = true ∧
      h.minBalance ≤ h.tokens ∧ h.tokens ≤ h.maxBalance ∧
      (0.000001 : ℝ) ≤ r.amount := by
  intro r hr
  rw [calculateDistribution] at hr
  by_cases hlen : (validHolders holders).length = 0
  · rw [if_pos hlen] at hr
    exact absurd hr (List.not_mem_nil r)
  · rw [if_neg hlen] at hr
    rw [List.mem_filter] at hr
    obtain ⟨hraw, hdust⟩ := hr
    simp only [decide_eq_true_eq] at hdust
    simp only [rawAllocations, List.mem_map] at hraw
    obtain ⟨p, hp, rfl⟩ := hraw
    obtain ⟨hmem, heq, hq, hmax⟩ := mem_validHolders hp
    rw [heq] at hq
    refine ⟨p.1, hmem, rfl, rfl, heq, hq, ?_, hmax, hdust⟩
    have hq' := hq
    unfold holderWeight at hq'
    exact not_lt.mp ((calculateWeightage_qualified_iff _ _ _ _).mp hq')

/-- Claim C4 witness: the allocation of the single-demo-holder run. -/
theorem claim_C4_allocation_provenance_witness :
    ∃ h, h ∈ [demoHolder] ∧
      (demoAlloc 10 0.05).address = h.address ∧
      (demoAlloc 10 0.05).tokens = h.tokens ∧
      (demoAlloc 10 0.05).weightage = holderWeight h ∧
      (holderWeight h).qualified = true ∧
      h.minBalance ≤ h.tokens ∧ h.tokens ≤ h.maxBalance ∧
      (0.000001 : ℝ) ≤ (demoAlloc 10 0.05).amount :=
  claim_C4_allocation_provenance [demoHolder] 10 0.05 (demoAlloc 10 0.05)
    (by
      rw [calculateDistribution_demo 10 0.05 (by norm_num)]
      exact List.mem_singleton.mpr rfl)

/-- Claim C5: the code performs no configuration validation.  With
`minBalance = -1` the Weight Calculator returns a normal qualified record,
and with a negative treasury and a fee fraction of 2 the Distribution
Engine returns a normal allocation (of amount 10) — no distinct failure is
ever reported.  This contradicts the claim, which demands rejection before
computation. -/
theorem claim_C5_no_config_rejection :
    (calculateWeightage 5 0 0 (-1)).qualified = true ∧
    (calculateDistribution [demoHolder] (-10) 2).map
      (fun r => r.amount) = [10] := by
  constructor
  · exact (calculateWeightage_qualified_iff 5 0 0 (-1)).mpr (by norm_num)
  · rw [calculateDistribution_demo (-10) 2 (by norm_num)]
    simp only [List.map_cons, List.map_nil, demoAlloc]
    norm_num

/-- Claim C6: the spec's concrete scenario — one holder with tokens 20000
bought at hour 0, 48 hours since launch, minBalance 20000 — yields
`earlyBonus = 3`, `balanceWeight = 1`, `tenureBonus = 1 + 0.6·log₂ 3`,
`totalWeight = 3·(1 + 0.6·log₂ 3)`, and distributing a treasury of 10 with
fee reserve 0.05 yields share 1 and amount 9.5. -/
theorem claim_C6_concrete_scenario :
    (holderWeight demoHolder).earlyBonus = 3 ∧
    (holderWeight demoHolder).balanceWeight = 1 ∧
    (holderWeight demoHolder).tenureBonus = 1 + 0.6 * Real.logb 2 3 ∧
    (holderWeight demoHolder).totalWeight = 3 * (1 + 0.6 * Real.logb 2 3) ∧
    (calculateDistribution [demoHolder] 10 0.05).map
      (fun r => (r.share, r.amount)) = [(1, 9.5)] := by
  rw [holderWeight_demo]
  refine ⟨rfl, rfl, rfl, rfl, ?_⟩
  rw [calculateDistribution_demo 10 0.05 (by norm_num)]
  simp only [List.map_cons, List.map_nil, demoAlloc]
  norm_num

/-- Claim C7: an empty holder list, or one in which every holder is below
its minimum or above its maximum balance, distributes to the empty list —
a normal result, not a failure. -/
theorem claim_C7_degenerate_empty (T f : ℝ) :
    calculateDistribution [] T f = [] ∧
    ∀ holders : List Holder,
      (∀ h ∈ holders, h.tokens < h.minBalance ∨ h.maxBalance < h.tokens) →
      calculateDistribution holders T f = [] := by
  constructor
  · apply calculateDistribution_of_validHolders_nil
    simp [validHolders]
  · intro holders hall
    exact calculateDistribution_of_validHolders_nil holders T f
      (validHolders_eq_nil holders hall)

/-- Claim C7 witness: the empty list and a single below-minimum holder. -/
theorem claim_C7_degenerate_empty_witness :
    calculateDistribution [] 10 0.05 = [] ∧
    calculateDistribution [belowHolder] 10 0.05 = [] := by
  refine ⟨(claim_C7_degenerate_empty 10 0.05).1, ?_⟩
  apply (claim_C7_degenerate_empty 10 0.05).2
  intro h hh
  rw [List.mem_singleton] at hh
  subst hh
  left
  norm_num [belowHolder]

/-- Claim C8: the Statistics Aggregator counts as valid exactly the holders
with `tokens ≥ minBalance` (min-balance check only) and sums tokens over
that subset; a holder above its maxBalance is still counted there even
though the Distribution Engine excludes it. -/
theorem claim_C8_stats_min_only :
    (∀ (holders : List Holder) (dist : List AllocationResult),
      (getDistributionStats holders dist).validHolders =
        holders.countP (fun h => decide (h.minBalance ≤ h.tokens)) ∧
      (getDistributionStats holders dist).totalTokens =
        ((holders.filter (fun h => decide (h.minBalance ≤ h.tokens))).map
          (fun h => h.tokens)).sum) ∧
    (getDistributionStats [overMaxHolder] []).validHolders = 1 ∧
    calculateDistribution [overMaxHolder] 10 0.05 = [] := by
  refine ⟨fun holders dist => ⟨?_, rfl⟩, ?_, ?_⟩
  · simp [getDistributionStats, List.countP_eq_length_filter]
  · show (List.filter (fun h => decide (h.minBalance ≤ h.tokens))
      [overMaxHolder]).length = 1
    rw [filter_singleton_of_pos _ _
      (by simp only [overMaxHolder, decide_eq_true_eq]; norm_num)]
    rfl
  · apply calculateDistribution_of_validHolders_nil
    apply validHolders_eq_nil
    intro x hx
    rw [List.mem_singleton] at hx
    subst hx
    right
    norm_num [overMaxHolder]

/-- Claim C9: as functions of the qualified-case inputs, the early bonus is
3 at launch day, strictly decreasing, and tends to 1 at infinity; the
tenure bonus is 1 at zero days held and strictly increasing on `[0, ∞)`. -/
theorem claim_C9_bonus_monotonicity :
    earlyBonusOf 0 = 3 ∧
    StrictAnti earlyBonusOf ∧
    Filter.Tendsto earlyBonusOf Filter.atTop (nhds 1) ∧
    tenureBonusOf 0 = 1 ∧
    StrictMonoOn tenureBonusOf (Set.Ici (0 : ℝ)) := by
  refine ⟨?_, ?_, ?_, ?_, ?_⟩
  · unfold earlyBonusOf
    norm_num [Real.exp_zero]
  · intro x y hxy
    unfold earlyBonusOf
    have h := Real.exp_lt_exp.mpr (show -y / 2 < -x / 2 by linarith)
    linarith
  · have h1 : Filter.Tendsto (fun d : ℝ => -d) Filter.atTop Filter.atBot :=
      Filter.tendsto_neg_atTop_atBot
    have h2 : Filter.Tendsto (fun d : ℝ => -d / 2) Filter.atTop Filter.atBot :=
      h1.atBot_div_const (by norm_num)
    have h3 : Filter.Tendsto (fun d : ℝ => Real.exp (-d / 2))
        Filter.atTop (nhds 0) := Real.tendsto_exp_atBot.comp h2
    have h4 := (h3.const_mul (2 : ℝ)).const_add (1 : ℝ)
    unfold earlyBonusOf
    simpa using h4
  · unfold tenureBonusOf
    norm_num [Real.logb_one]
  · intro x hx y _ hxy
    have hx0 : (0 : ℝ) ≤ x := hx
    unfold tenureBonusOf
    have h : Real.logb 2 (x + 1) < Real.logb 2 (y + 1) :=
      Real.logb_lt_logb (by norm_num) (by linarith) (by linarith)
    linarith

/-- Claim C10: the result field named `hoursSinceLaunch` holds the
`hoursAfterLaunch` argument in the qualified case (and 0 otherwise) —
witnessed concretely at a qualified and a disqualified input. -/
theorem claim_C10_hoursSinceLaunch_field_witness :
    (calculateWeightage 30 7 9 20).hoursSinceLaunch = 7 ∧
    (calculateWeightage 10 7 9 20).hoursSinceLaunch = 0 := by
  constructor
  · rw [claim_C10_hoursSinceLaunch_field 30 7 9 20, if_neg (by norm_num)]
  · rw [claim_C10_hoursSinceLaunch_field 10 7 9 20, if_pos (by norm_num)]
